import Mathlib

/-!
Verification of `hopperpw/main/models.py` (dynamic-DNS host/domain model).

Strings from the Python side are embedded as `List Char`; timestamps as `Nat`;
regular expressions via Mathlib's `RegularExpression Char` (Python's `re`
module restricted to the constructs actually occurring in the source:
character classes, concatenation, alternation, star, full anchoring `^...$`).
Database tables are embedded as lists of rows; `save` writes a row back by
primary key; exceptions are embedded as explicit result constructors.
-/

namespace HopperPw

open RegularExpression

/-! ## Regular expressions: character classes and search semantics -/

/-- A character-class regex `[c₁c₂...]`: alternation of the single characters. -/
def ofClass (l : List Char) : RegularExpression Char :=
  l.foldr (fun c r => char c + r) 0

/-- The lowercase letters `a`-`z`. -/
def lowerChars : List Char := "abcdefghijklmnopqrstuvwxyz".toList

/-- The digits `0`-`9`. -/
def digitChars : List Char := "0123456789".toList

/-- The class `[a-z0-9]` from the subdomain regex. -/
def clsAlnum : RegularExpression Char := ofClass (lowerChars ++ digitChars)

/-- The class `[a-z0-9\-]` from the subdomain regex. -/
def clsAlnumHyphen : RegularExpression Char := ofClass (lowerChars ++ digitChars ++ ['-'])

/-- Source `models.py` line 86: the `RegexValidator` pattern on `Host.subdomain`,
`^(([a-z0-9][a-z0-9\-]*[a-z0-9])|[a-z0-9])$`.  The anchors `^...$` make it a
full match, embedded as plain language membership. -/
def codeSubdomainRegex : RegularExpression Char :=
  clsAlnum * (clsAlnumHyphen.star * clsAlnum) + clsAlnum

/-- The spec's reference label language `^[a-z0-9]([a-z0-9-]*[a-z0-9])?$`,
built from the spec's words, to be compared with `codeSubdomainRegex`. -/
def specSubdomainRegex : RegularExpression Char :=
  clsAlnum * (clsAlnumHyphen.star * clsAlnum + 1)

/-- The label language both subdomain patterns denote: one `[a-z0-9]`
character alone, or an `[a-z0-9]` character, then `[a-z0-9-]*`, then a final
`[a-z0-9]` character. -/
def GoodLabel (s : List Char) : Prop :=
  (∃ c, c ∈ lowerChars ++ digitChars ∧ s = [c]) ∨
  (∃ c m d, s = c :: m ++ [d] ∧ c ∈ lowerChars ++ digitChars ∧
    d ∈ lowerChars ++ digitChars ∧ ∀ x ∈ m, x ∈ lowerChars ++ digitChars ++ ['-'])

/-- Python `re.search(r, v)` for an (anchor-free) pattern `r`: some factor of
`v` — a prefix of a suffix — is in the language of `r`.  Executable via
Mathlib's derivative matcher `rmatch`. -/
def re_search (r : RegularExpression Char) (v : List Char) : Bool :=
  v.tails.any fun t => t.inits.any fun u => r.rmatch u

/-! ## Blacklist validation (`domain_blacklist_validator`, lines 51-54)

A `BlacklistedDomain.domain` column stores a pattern string; at evaluation
time `re.search` first compiles it, which either yields a regex or raises
`re.error`.  A stored pattern is embedded by its compilation outcome. -/

/-- A stored blacklist pattern: either it compiles to a regex or it is
malformed (compilation raises `re.error`). -/
inductive StoredPattern where
  | good (r : RegularExpression Char)
  | malformed

/-- Outcome of running `domain_blacklist_validator`: normal return, a raised
`ValidationError` (message: This domain is not allowed), or an uncaught `re.error`
escaping from `re.search` on a malformed stored pattern. -/
inductive ValidatorResult where
  | ok
  | validationError
  | reError
deriving DecidableEq, Repr

/-- Source `models.py` lines 51-54: iterate over all `BlacklistedDomain` rows and
raise `ValidationError` as soon as `re.search(bd.domain, value)` matches.
A malformed pattern makes `re.search` itself raise, uncaught. -/
def domain_blacklist_validator : List StoredPattern → List Char → ValidatorResult
  | [], _ => .ok
  | .malformed :: _, _ => .reError
  | .good r :: rest, value =>
    if re_search r value then .validationError else domain_blacklist_validator rest value

/-- Whether one stored pattern matches the candidate (a malformed pattern
matches nothing; on the code path it raises before this could be asked). -/
def pattern_matches (value : List Char) : StoredPattern → Bool
  | .good r => re_search r value
  | .malformed => false

/-! ## Update-key validation (`ns_update_key_validator`, lines 57-61)

`base64.decodestring` is CPython 2's `binascii.a2b_base64`: it skips
characters outside the base64 alphabet, treats `=` as terminating padding
only at quad position ≥ 2 (position 2 requiring a second `=` ahead), and
raises the `binascii` Incorrect padding error exactly when left-over bits
remain at the end. -/

/-- The 6-bit value of a base64 alphabet character, `none` for characters
outside the alphabet (which the decoder skips). -/
def base64_char_val (c : Char) : Option Nat :=
  if 'A' ≤ c ∧ c ≤ 'Z' then some (c.toNat - 'A'.toNat)
  else if 'a' ≤ c ∧ c ≤ 'z' then some (c.toNat - 'a'.toNat + 26)
  else if '0' ≤ c ∧ c ≤ '9' then some (c.toNat - '0'.toNat + 52)
  else if c = '+' then some 62
  else if c = '/' then some 63
  else none

/-- Membership in the base64 alphabet. -/
def is_b64 (c : Char) : Bool := (base64_char_val c).isSome

/-- CPython `binascii_find_valid`: the `(n+1)`-th character that is either in the
alphabet or `=`, scanning from the current position. -/
def find_valid : List Char → Nat → Option Char
  | [], _ => none
  | c :: rest, n =>
    if is_b64 c ∨ c = '=' then
      if n = 0 then some c else find_valid rest (n - 1)
    else find_valid rest n

/-- The decode loop of `binascii.a2b_base64` reduced to its success
condition: `qp` is the quad position (`quad_pos`), `lb` the pending bit count
(`leftbits`); the function returns whether decoding finishes without
`Incorrect padding`. -/
def a2b_base64_loop : List Char → Nat → Nat → Bool
  | [], _, lb => lb == 0
  | c :: rest, qp, lb =>
    if c = '=' then
      if qp < 2 ∨ (qp = 2 ∧ find_valid (c :: rest) 1 ≠ some '=') then
        a2b_base64_loop rest qp lb
      else
        true
    else
      match base64_char_val c with
      | none => a2b_base64_loop rest qp lb
      | some _ => a2b_base64_loop rest ((qp + 1) % 4) (if lb + 6 ≥ 8 then lb + 6 - 8 else lb + 6)

/-- Whether `base64.decodestring(s)` succeeds (raises no `binascii.Error`). -/
def base64_decodestring_ok (s : List Char) : Bool := a2b_base64_loop s 0 0

/-- Source `models.py` lines 57-61: try `base64.decodestring(value)`, turning a
`binascii.Error` into a `ValidationError`. -/
def ns_update_key_validator (value : List Char) : Except (List Char) Unit :=
  if base64_decodestring_ok value then .ok ()
  else .error ("Invalid update key: Must be base64".toList)

/-- Reference definition, from the spec's words: `value` is a valid base64
encoding — groups of four alphabet characters, the last group optionally
padded as `xx==` or `xxx=`. -/
def is_valid_base64 : List Char → Bool
  | [] => true
  | a :: b :: c :: d :: rest =>
    if rest.isEmpty then
      is_b64 a && is_b64 b &&
        ((is_b64 c && is_b64 d) || (is_b64 c && d = '=') || (c = '=' && d = '='))
    else
      is_b64 a && is_b64 b && is_b64 c && is_b64 d && is_valid_base64 rest
  | _ => false

/-! ## Data model (`Domain`, `Host`, lines 69-102)

Rows carry an `id` primary key (Django's implicit `id` field); `created_by`
is embedded as the referencing user's id. -/

/-- Source `models.py` lines 69-77: a `Domain` row. -/
structure Domain where
  id : Nat
  domain : List Char
  nameserver_ip : List Char
  nameserver_update_key : List Char
  nameserver_update_algorithm : List Char
  available_for_everyone : Bool
  created_by : Option Nat
deriving DecidableEq, Repr

/-- Source `models.py` lines 83-95: a `Host` row.  `last_update` is the
`auto_now` timestamp of `BaseModel` (line 20), refreshed on every save. -/
structure Host where
  id : Nat
  subdomain : List Char
  domain : Domain
  update_secret : List Char
  comment : List Char
  created_by : Nat
  last_api_update : Option Nat
  last_update : Nat
deriving DecidableEq, Repr

/-- Django `Model.save()` on an existing row: write the row back over every
row with the same primary key. -/
def save (db : List Host) (h : Host) : List Host :=
  db.map fun x => if x.id = h.id then h else x

/-- Source `models.py` lines 104-105: `get_fqdn` joins `subdomain` and `domain.domain` with a dot by percent formatting. -/
def get_fqdn (h : Host) : List Char :=
  h.subdomain ++ '.' :: h.domain.domain

/-- Python `fqdn.split('.', 1)` (line 112), meaningful when a dot is present:
the part before the first dot and everything after it. -/
def split_first_dot : List Char → List Char × List Char
  | [] => ([], [])
  | c :: rest =>
    if c = '.' then ([], rest)
    else
      let p := split_first_dot rest
      (c :: p.1, p.2)

/-- Source `models.py` lines 107-114: `Host.filter_by_fqdn`.  Without a dot the
queryset is empty; otherwise the fqdn is split at the first dot and rows are
filtered on `subdomain` and `domain__domain`. -/
def filter_by_fqdn (hosts : List Host) (fqdn : List Char) : List Host :=
  if '.' ∈ fqdn then
    let s := split_first_dot fqdn
    hosts.filter fun h => h.subdomain == s.1 && h.domain.domain == s.2
  else []

/-- Reference definition, from the spec's words: if the input has no dot,
no Host resolves; otherwise everything before the first dot is the subdomain
label and the entire remainder after that dot is the domain name looked up. -/
def resolveFqdn_spec (hosts : List Host) (f : List Char) : List Host :=
  if '.' ∈ f then
    let p := f.takeWhile fun c => c ≠ '.'
    let q := (f.dropWhile fun c => c ≠ '.').tail
    hosts.filter fun h => h.subdomain == p && h.domain.domain == q
  else []

/-! ## DNS query and deletion boundary (`dnstools` calls) -/

/-- The exceptions `dns.resolver` can raise at a `query_ns` call: the four
caught on lines 119/125, or any other exception (tagged by a code). -/
inductive DnsException where
  | NXDOMAIN
  | NoAnswer
  | NoNameservers
  | Timeout
  | other (code : Nat)
deriving DecidableEq, Repr

/-- The outcome of a `dnstools.query_ns(fqdn, rdtype, origin)` call: a
returned address string, or a raised exception. -/
abbrev QueryOutcome := Except DnsException (List Char)

/-- An environment giving the outcome of each `dnstools.query_ns` call,
keyed by its three arguments `(fqdn, rdtype, origin)`. -/
abbrev QueryEnv := List Char → List Char → List Char → QueryOutcome

/-- Source `models.py` lines 116-120: `Host.getIPv4` queries record type A and
maps the four resolver exceptions to the empty string; anything else propagates. -/
def getIPv4 (h : Host) (query : QueryEnv) : QueryOutcome :=
  match query (get_fqdn h) ("A".toList) h.domain.domain with
  | .ok a => .ok a
  | .error .NXDOMAIN => .ok []
  | .error .NoAnswer => .ok []
  | .error .NoNameservers => .ok []
  | .error .Timeout => .ok []
  | .error (.other c) => .error (.other c)

/-- Source `models.py` lines 122-126: `Host.getIPv6`, identical but for record type AAAA. -/
def getIPv6 (h : Host) (query : QueryEnv) : QueryOutcome :=
  match query (get_fqdn h) ("AAAA".toList) h.domain.domain with
  | .ok a => .ok a
  | .error .NXDOMAIN => .ok []
  | .error .NoAnswer => .ok []
  | .error .NoNameservers => .ok []
  | .error .Timeout => .ok []
  | .error (.other c) => .error (.other c)

/-- The `dnstools.delete(fqdn, origin)` call issued by the post-delete hook. -/
structure DnsDeleteCall where
  fqdn : List Char
  origin : List Char
deriving DecidableEq, Repr

/-- Outcome of the `dnstools.delete` transaction. -/
inductive DnsDeleteOutcome where
  | success
  | transportError (msg : List Char)
deriving DecidableEq, Repr

/-- Deleting a Host row (`models.py` lines 146-151): Django removes the row,
then the `post_delete` signal runs `post_delete_host`, which calls
`dnstools.delete(obj.get_fqdn(), origin=obj.domain.domain)`.  The outcome of
that DNS call (success or a raised transport error) is an input; the
function returns the registry after deletion, the DNS call issued, and the
propagated outcome. -/
def delete_host (db : List Host) (h : Host) (outcome : DnsDeleteOutcome) :
    List Host × DnsDeleteCall × DnsDeleteOutcome :=
  let remaining := db.filter fun x => x.id ≠ h.id
  (remaining, ⟨get_fqdn h, h.domain.domain⟩, outcome)

/-! ## Update bookkeeping and secrets (`poke`, `generate_secret`) -/

/-- Source `models.py` lines 128-130: `poke` sets `last_api_update = datetime.now()`
and saves; saving refreshes the `auto_now` field `last_update` (line 20). -/
def poke (db : List Host) (h : Host) (now : Nat) : Host × List Host :=
  let h' := { h with last_api_update := some now, last_update := now }
  (h', save db h')

/-- Django's default password alphabet for `User.objects.make_random_password`
(no `i l o I O 0 1`, and in particular no `$`). -/
def random_password_chars : List Char :=
  "abcdefghjkmnpqrstuvwxyzABCDEFGHJKLMNPQRSTUVWXYZ23456789".toList

/-- Django `User.objects.make_random_password()` (line 137): ten characters drawn
from `random_password_chars`; the draws are supplied by `rng`. -/
def make_random_password (rng : Nat → Nat) : List Char :=
  (List.range 10).map fun i =>
    random_password_chars.getD (rng i % random_password_chars.length) 'a'

/-- Django `make_password` with the sha1 hasher (lines 138-141):
`"sha1$<salt>$<hexdigest of sha1(salt + password)>"`, with the digest
function `sha1hex` abstract. -/
def make_password (sha1hex : List Char → List Char) (salt : List Char)
    (password : List Char) : List Char :=
  "sha1$".toList ++ salt ++ '$' :: sha1hex (salt ++ password)

/-- Source `models.py` lines 132-143: `generate_secret` draws a fresh plaintext,
overwrites `update_secret` with its salted sha1 verifier, saves the row
(refreshing the `auto_now` field `last_update`), and returns the plaintext. -/
def generate_secret (sha1hex : List Char → List Char) (rng : Nat → Nat)
    (salt : List Char) (now : Nat) (db : List Host) (h : Host) :
    Host × List Host × List Char :=
  let secret := make_random_password rng
  let h' := { h with update_secret := make_password sha1hex salt secret,
                     last_update := now }
  (h', save db h', secret)

/-! ## Concrete sample rows, used by witnesses -/

/-- A sample `Domain` row (the spec's §8 scenario zone). -/
def exampleDomain : Domain :=
  ⟨1, "example.org".toList, "192.0.2.1".toList, "bm90YXJlYWxrZXk=".toList,
   "HMAC_SHA512".toList, true, none⟩

/-- A sample `Host` row under `exampleDomain`. -/
def exampleHost : Host :=
  ⟨1, "my-host".toList, exampleDomain, [], [], 1, none, 0⟩

/-! ## Helper lemmas -/

/-- Python `split('.', 1)` agrees with take/drop at the first dot when a dot exists. -/
theorem split_first_dot_eq_takeDrop :
    ∀ f : List Char, '.' ∈ f →
      split_first_dot f =
        (f.takeWhile (fun c => c ≠ '.'), (f.dropWhile (fun c => c ≠ '.')).tail) := by
  intro f hf
  induction f with
  | nil => cases hf
  | cons c rest ih =>
    by_cases hc : c = '.'
    · subst hc
      simp [split_first_dot, List.takeWhile_cons, List.dropWhile_cons]
    · have hrest : '.' ∈ rest := by
        rcases List.mem_cons.mp hf with h | h
        · exact absurd h.symm hc
        · exact h
      have := ih hrest
      simp [split_first_dot, hc, List.takeWhile_cons, List.dropWhile_cons, this]

/-- Splitting `sub ++ "." ++ dom` at the first dot recovers `(sub, dom)`
when `sub` itself has no dot. -/
theorem split_first_dot_append (sub dom : List Char) (hs : '.' ∉ sub) :
    split_first_dot (sub ++ '.' :: dom) = (sub, dom) := by
  induction sub with
  | nil => simp [split_first_dot]
  | cons c rest ih =>
    have hc : c ≠ '.' := fun hc => hs (hc ▸ List.mem_cons_self c rest)
    have hrest : '.' ∉ rest := fun hr => hs (List.mem_cons_of_mem c hr)
    simp [split_first_dot, hc, ih hrest]

/-- On a duplicate-free list, a predicate that holds exactly at a present
element filters down to the singleton of that element. -/
theorem filter_eq_singleton_of_nodup {α : Type} (l : List α) (a : α) (p : α → Bool)
    (hnd : l.Nodup) (ha : a ∈ l) (hp : ∀ x ∈ l, p x = true ↔ x = a) :
    l.filter p = [a] := by
  induction l with
  | nil => cases ha
  | cons b t ih =>
    have hbt : b ∉ t := (List.nodup_cons.mp hnd).1
    have hnt : t.Nodup := (List.nodup_cons.mp hnd).2
    by_cases hba : b = a
    · subst hba
      have hpb : p b = true := (hp b (List.mem_cons_self b t)).mpr rfl
      have hfilt : t.filter p = [] := by
        rw [List.filter_eq_nil_iff]
        intro x hx hpx
        exact hbt (((hp x (List.mem_cons_of_mem b hx)).mp hpx) ▸ hx)
      simp [List.filter_cons, hpb, hfilt]
    · have hat : a ∈ t := by
        rcases List.mem_cons.mp ha with h | h
        · exact absurd h.symm hba
        · exact h
      have hpb : p b = false := by
        rcases Bool.eq_false_or_eq_true (p b) with h | h
        · exact absurd ((hp b (List.mem_cons_self b t)).mp h) hba
        · exact h
      have := ih hnt hat (fun x hx => hp x (List.mem_cons_of_mem b hx))
      simp [List.filter_cons, hpb, this]

/-- Python `re.search` semantics: the pattern matches some factor (contiguous
substring) of the candidate. -/
theorem re_search_iff (r : RegularExpression Char) (v : List Char) :
    re_search r v = true ↔
      ∃ x y z : List Char, v = x ++ y ++ z ∧ y ∈ r.matches' := by
  unfold re_search
  rw [List.any_eq_true]
  constructor
  · rintro ⟨t, ht, hin⟩
    rw [List.any_eq_true] at hin
    obtain ⟨u, hu, hr⟩ := hin
    obtain ⟨x, hx⟩ := (List.mem_tails _ _).mp ht
    obtain ⟨z, hz⟩ := (List.mem_inits _ _).mp hu
    exact ⟨x, u, z, by rw [← hx, ← hz, List.append_assoc],
           (rmatch_iff_matches' r u).mp hr⟩
  · rintro ⟨x, y, z, hv, hm⟩
    refine ⟨y ++ z, (List.mem_tails _ _).mpr ⟨x, by rw [hv, ← List.append_assoc]⟩, ?_⟩
    rw [List.any_eq_true]
    exact ⟨y, (List.mem_inits _ _).mpr ⟨z, rfl⟩, (rmatch_iff_matches' r y).mpr hm⟩

/-- On a blacklist whose stored patterns all compile, the validator is the
if-then-else of the disjunction of the individual matches. -/
theorem domain_blacklist_validator_eq_of_good (B : List StoredPattern) (v : List Char)
    (hgood : ∀ p ∈ B, p ≠ StoredPattern.malformed) :
    domain_blacklist_validator B v =
      if B.any (pattern_matches v) then .validationError else .ok := by
  induction B with
  | nil => simp [domain_blacklist_validator]
  | cons p rest ih =>
    cases p with
    | malformed => exact absurd rfl (hgood _ (List.mem_cons_self _ _))
    | good r =>
      have hrest : ∀ q ∈ rest, q ≠ StoredPattern.malformed :=
        fun q hq => hgood q (List.mem_cons_of_mem _ hq)
      by_cases hs : re_search r v = true
      · simp [domain_blacklist_validator, pattern_matches, hs]
      · have hs' : re_search r v = false := Bool.eq_false_iff.mpr hs
        simp [domain_blacklist_validator, pattern_matches, hs', ih hrest]

/-- A word is in the language of a character class iff it is one character
of the class. -/
theorem mem_ofClass_iff (l : List Char) (x : List Char) :
    x ∈ (ofClass l).matches' ↔ ∃ c ∈ l, x = [c] := by
  induction l with
  | nil =>
    constructor
    · intro hx
      exact absurd hx (by rw [show ofClass [] = 0 from rfl, matches'_zero]; exact Language.not_mem_zero x)
    · rintro ⟨c, hc, _⟩
      cases hc
  | cons c cs ih =>
    rw [show ofClass (c :: cs) = char c + ofClass cs from rfl, matches'_add,
        Language.mem_add, matches'_char, Set.mem_singleton_iff, ih]
    constructor
    · rintro (rfl | ⟨c', hc', rfl⟩)
      · exact ⟨c, List.mem_cons_self _ _, rfl⟩
      · exact ⟨c', List.mem_cons_of_mem _ hc', rfl⟩
    · rintro ⟨c', hc', rfl⟩
      rcases List.mem_cons.mp hc' with h | h
      · exact Or.inl (by rw [h])
      · exact Or.inr ⟨c', h, rfl⟩

/-- Flattening singleton chunks is the identity. -/
theorem flatten_map_singleton (x : List Char) :
    (x.map fun c => [c]).flatten = x := by
  induction x with
  | nil => rfl
  | cons a t ih => simp [ih]

/-- A word is in the starred language of a character class iff every one of
its characters is in the class. -/
theorem mem_star_ofClass_iff (l : List Char) (x : List Char) :
    x ∈ (ofClass l).star.matches' ↔ ∀ c ∈ x, c ∈ l := by
  rw [matches'_star, Language.mem_kstar]
  constructor
  · rintro ⟨L, rfl, hL⟩ c hc
    obtain ⟨y, hy, hcy⟩ := List.mem_flatten.mp hc
    obtain ⟨c', hc', hyc⟩ := (mem_ofClass_iff l y).mp (hL y hy)
    subst hyc
    rw [List.mem_singleton] at hcy
    exact hcy ▸ hc'
  · intro hall
    refine ⟨x.map (fun c => [c]), (flatten_map_singleton x).symm, ?_⟩
    intro y hy
    obtain ⟨c, hc, rfl⟩ := List.mem_map.mp hy
    exact (mem_ofClass_iff l [c]).mpr ⟨c, hall c hc, rfl⟩

/-- The language of `^(([a-z0-9][a-z0-9\-]*[a-z0-9])|[a-z0-9])$`. -/
theorem mem_codeSubdomainRegex_iff (s : List Char) :
    s ∈ codeSubdomainRegex.matches' ↔ GoodLabel s := by
  unfold codeSubdomainRegex GoodLabel
  rw [matches'_add, Language.mem_add, matches'_mul, Language.mem_mul]
  constructor
  · rintro (⟨a, ha, b, hb, hab⟩ | hsingle)
    · obtain ⟨c, hc, rfl⟩ := (mem_ofClass_iff _ a).mp ha
      rw [matches'_mul, Language.mem_mul] at hb
      obtain ⟨m, hm, dd, hd, hmd⟩ := hb
      obtain ⟨d, hdc, rfl⟩ := (mem_ofClass_iff _ dd).mp hd
      subst hmd
      right
      exact ⟨c, m, d, by rw [← hab, List.singleton_append, List.cons_append], hc, hdc, (mem_star_ofClass_iff _ m).mp hm⟩
    · obtain ⟨c, hc, rfl⟩ := (mem_ofClass_iff _ s).mp hsingle
      exact Or.inl ⟨c, hc, rfl⟩
  · rintro (⟨c, hc, rfl⟩ | ⟨c, m, d, rfl, hc, hd, hm⟩)
    · exact Or.inr ((mem_ofClass_iff _ _).mpr ⟨c, hc, rfl⟩)
    · left
      refine ⟨[c], (mem_ofClass_iff _ _).mpr ⟨c, hc, rfl⟩, m ++ [d], ?_, rfl⟩
      rw [matches'_mul, Language.mem_mul]
      exact ⟨m, (mem_star_ofClass_iff _ m).mpr hm, [d],
             (mem_ofClass_iff _ _).mpr ⟨d, hd, rfl⟩, rfl⟩

/-- The language of the spec's `^[a-z0-9]([a-z0-9-]*[a-z0-9])?$`. -/
theorem mem_specSubdomainRegex_iff (s : List Char) :
    s ∈ specSubdomainRegex.matches' ↔ GoodLabel s := by
  unfold specSubdomainRegex GoodLabel
  rw [matches'_mul, Language.mem_mul]
  constructor
  · rintro ⟨a, ha, b, hb, hab⟩
    obtain ⟨c, hc, rfl⟩ := (mem_ofClass_iff _ a).mp ha
    rw [matches'_add, Language.mem_add] at hb
    rcases hb with hb | hb
    · rw [matches'_mul, Language.mem_mul] at hb
      obtain ⟨m, hm, dd, hd, hmd⟩ := hb
      obtain ⟨d, hdc, rfl⟩ := (mem_ofClass_iff _ dd).mp hd
      subst hmd
      right
      exact ⟨c, m, d, by rw [← hab, List.singleton_append, List.cons_append], hc, hdc, (mem_star_ofClass_iff _ m).mp hm⟩
    · rw [matches'_epsilon, Language.mem_one] at hb
      subst hb
      left
      exact ⟨c, hc, by rw [← hab, List.append_nil]⟩
  · rintro (⟨c, hc, rfl⟩ | ⟨c, m, d, rfl, hc, hd, hm⟩)
    · refine ⟨[c], (mem_ofClass_iff _ _).mpr ⟨c, hc, rfl⟩, [], ?_, rfl⟩
      rw [matches'_add, Language.mem_add]
      exact Or.inr (by rw [matches'_epsilon, Language.mem_one])
    · refine ⟨[c], (mem_ofClass_iff _ _).mpr ⟨c, hc, rfl⟩, m ++ [d], ?_, rfl⟩
      rw [matches'_add, Language.mem_add]
      left
      rw [matches'_mul, Language.mem_mul]
      exact ⟨m, (mem_star_ofClass_iff _ m).mpr hm, [d],
             (mem_ofClass_iff _ _).mpr ⟨d, hd, rfl⟩, rfl⟩

/-- Consuming one alphabet character advances the quad position and bit
count of the decode loop. -/
theorem a2b_step_b64 (a : Char) (rest : List Char) (qp lb : Nat)
    (ha : is_b64 a = true) :
    a2b_base64_loop (a :: rest) qp lb =
      a2b_base64_loop rest ((qp + 1) % 4) (if lb + 6 ≥ 8 then lb + 6 - 8 else lb + 6) := by
  have hne : a ≠ '=' := by
    intro h
    rw [h] at ha
    exact absurd ha (by decide)
  obtain ⟨v, hv⟩ := Option.isSome_iff_exists.mp (by simpa [is_b64] using ha)
  simp only [a2b_base64_loop, if_neg hne, hv]

/-- A full quad of alphabet characters returns the decode loop to the
initial state. -/
theorem a2b_quad (a b c d : Char) (rest : List Char)
    (ha : is_b64 a = true) (hb : is_b64 b = true)
    (hc : is_b64 c = true) (hd : is_b64 d = true) :
    a2b_base64_loop (a :: b :: c :: d :: rest) 0 0 = a2b_base64_loop rest 0 0 := by
  rw [a2b_step_b64 a _ _ _ ha, a2b_step_b64 b _ _ _ hb, a2b_step_b64 c _ _ _ hc,
      a2b_step_b64 d _ _ _ hd]
  rfl

/-- A final unpadded quad decodes cleanly. -/
theorem a2b_full_quad (a b c d : Char)
    (ha : is_b64 a = true) (hb : is_b64 b = true)
    (hc : is_b64 c = true) (hd : is_b64 d = true) :
    a2b_base64_loop [a, b, c, d] 0 0 = true := by
  rw [a2b_quad a b c d [] ha hb hc hd]
  rfl

/-- A final `xxx=` quad decodes cleanly. -/
theorem a2b_pad1 (a b c : Char)
    (ha : is_b64 a = true) (hb : is_b64 b = true) (hc : is_b64 c = true) :
    a2b_base64_loop [a, b, c, '='] 0 0 = true := by
  rw [a2b_step_b64 a _ _ _ ha, a2b_step_b64 b _ _ _ hb, a2b_step_b64 c _ _ _ hc]
  rfl

/-- A final `xx==` quad decodes cleanly. -/
theorem a2b_pad2 (a b : Char) (ha : is_b64 a = true) (hb : is_b64 b = true) :
    a2b_base64_loop [a, b, '=', '='] 0 0 = true := by
  rw [a2b_step_b64 a _ _ _ ha, a2b_step_b64 b _ _ _ hb]
  rfl

/-- Every strictly valid base64 string decodes without `Incorrect padding`. -/
theorem decodestring_ok_of_valid :
    ∀ (n : Nat) (k : List Char), k.length ≤ n →
      is_valid_base64 k = true → base64_decodestring_ok k = true := by
  intro n
  induction n with
  | zero =>
    intro k hlen _
    have hk : k = [] := List.eq_nil_of_length_eq_zero (Nat.le_zero.mp hlen)
    subst hk
    rfl
  | succ n ih =>
    intro k hlen hval
    match k with
    | [] => rfl
    | [a] => simp [is_valid_base64] at hval
    | [a, b] => simp [is_valid_base64] at hval
    | [a, b, c] => simp [is_valid_base64] at hval
    | [a, b, c, d] =>
      have hval' : (is_b64 a && is_b64 b &&
          ((is_b64 c && is_b64 d) || (is_b64 c && decide (d = '=')) ||
           (decide (c = '=') && decide (d = '=')))) = true := hval
      simp only [Bool.and_eq_true, Bool.or_eq_true, decide_eq_true_eq] at hval'
      obtain ⟨⟨ha, hb⟩, habcd⟩ := hval'
      show a2b_base64_loop [a, b, c, d] 0 0 = true
      rcases habcd with (⟨hc, hd⟩ | ⟨hc, hd⟩) | ⟨hc, hd⟩
      · exact a2b_full_quad a b c d ha hb hc hd
      · rw [hd]
        exact a2b_pad1 a b c ha hb hc
      · rw [hc, hd]
        exact a2b_pad2 a b ha hb
    | a :: b :: c :: d :: e :: tail =>
      have hval' : (is_b64 a && is_b64 b && is_b64 c && is_b64 d &&
          is_valid_base64 (e :: tail)) = true := hval
      simp only [Bool.and_eq_true] at hval'
      obtain ⟨⟨⟨⟨ha, hb⟩, hc⟩, hd⟩, hrest⟩ := hval'
      show a2b_base64_loop (a :: b :: c :: d :: e :: tail) 0 0 = true
      rw [a2b_quad a b c d (e :: tail) ha hb hc hd]
      have hlen' : (e :: tail).length ≤ n := by
        simp only [List.length_cons] at hlen ⊢
        omega
      exact ih (e :: tail) hlen' hrest

/-! ## Claims -/

/-- C1: deleting a Host issues a `dnstools.delete` call for the Host's fqdn
with its Domain's name as origin, and for every outcome of that call —
success or a raised transport error — the Host row is gone from the registry
and is not returned by `filter_by_fqdn` on its fqdn. -/
theorem C1_delete_cascade (db : List Host) (h : Host) (outcome : DnsDeleteOutcome) :
    (delete_host db h outcome).2.1 = ⟨get_fqdn h, h.domain.domain⟩ ∧
    (delete_host db h outcome).2.2 = outcome ∧
    h ∉ (delete_host db h outcome).1 ∧
    h ∉ filter_by_fqdn (delete_host db h outcome).1 (get_fqdn h) := by
  have hnot : h ∉ (delete_host db h outcome).1 := by
    intro hmem
    have := (List.mem_filter.mp hmem).2
    simp at this
  refine ⟨rfl, rfl, hnot, ?_⟩
  intro hmem
  unfold filter_by_fqdn at hmem
  split at hmem
  · exact hnot (List.mem_filter.mp hmem).1
  · cases hmem

/-- C5: `filter_by_fqdn` coincides with the spec's reverse mapping: inputs
without a dot resolve to no Host, and otherwise the input is split at the
first dot only, matching the part before it against `subdomain` and the
entire part after it against the domain name. -/
theorem C5_filter_by_fqdn_matches_spec (hosts : List Host) (f : List Char) :
    filter_by_fqdn hosts f = resolveFqdn_spec hosts f := by
  unfold filter_by_fqdn resolveFqdn_spec
  by_cases hdot : '.' ∈ f
  · simp only [hdot, if_pos, split_first_dot_eq_takeDrop f hdot]
  · simp [hdot]

/-- C6: `getIPv4`/`getIPv6` map each of the four resolver failures
(`NXDOMAIN`, `NoAnswer`, `NoNameservers`, `Timeout`) to the empty string
result, pass a successful answer through, and do not catch any other
exception. -/
theorem C6_query_failure_mapping (h : Host) (q : QueryEnv) :
    (∀ e ∈ [DnsException.NXDOMAIN, DnsException.NoAnswer,
            DnsException.NoNameservers, DnsException.Timeout],
      (q (get_fqdn h) ("A".toList) h.domain.domain = .error e → getIPv4 h q = .ok []) ∧
      (q (get_fqdn h) ("AAAA".toList) h.domain.domain = .error e → getIPv6 h q = .ok [])) ∧
    (∀ a, (q (get_fqdn h) ("A".toList) h.domain.domain = .ok a → getIPv4 h q = .ok a) ∧
          (q (get_fqdn h) ("AAAA".toList) h.domain.domain = .ok a → getIPv6 h q = .ok a)) ∧
    (∀ c, (q (get_fqdn h) ("A".toList) h.domain.domain = .error (.other c) →
            getIPv4 h q = .error (.other c)) ∧
          (q (get_fqdn h) ("AAAA".toList) h.domain.domain = .error (.other c) →
            getIPv6 h q = .error (.other c))) := by
  refine ⟨?_, ?_, ?_⟩
  · intro e he
    fin_cases he <;>
      exact ⟨fun heq => by simp only [getIPv4]; rw [heq],
             fun heq => by simp only [getIPv6]; rw [heq]⟩
  · intro a
    exact ⟨fun heq => by simp only [getIPv4]; rw [heq],
           fun heq => by simp only [getIPv6]; rw [heq]⟩
  · intro c
    exact ⟨fun heq => by simp only [getIPv4]; rw [heq],
           fun heq => by simp only [getIPv6]; rw [heq]⟩

/-- Witness for C6: a query environment that times out makes `getIPv4` and
`getIPv6` return the empty string. -/
theorem C6_query_failure_mapping_witness :
    getIPv4 exampleHost (fun _ _ _ => .error .Timeout) = .ok [] ∧
    getIPv6 exampleHost (fun _ _ _ => .error .Timeout) = .ok [] := by
  have hmain := C6_query_failure_mapping exampleHost (fun _ _ _ => .error .Timeout)
  have h4 := (hmain.1 DnsException.Timeout (by simp)).1 rfl
  have h6 := (hmain.1 DnsException.Timeout (by simp)).2 rfl
  exact ⟨h4, h6⟩

/-- C4: for a Host in a duplicate-free registry satisfying the
`unique_together (subdomain, domain)` invariant and whose subdomain has no
dot, the fqdn is `subdomain ++ "." ++ domain.domain` and `filter_by_fqdn`
on that fqdn returns exactly that Host. -/
theorem C4_fqdn_roundtrip (hosts : List Host) (h : Host)
    (hmem : h ∈ hosts) (hnd : hosts.Nodup) (hnodot : '.' ∉ h.subdomain)
    (huniq : ∀ h₁ ∈ hosts, ∀ h₂ ∈ hosts, h₁.subdomain = h₂.subdomain →
      h₁.domain.domain = h₂.domain.domain → h₁ = h₂) :
    get_fqdn h = h.subdomain ++ '.' :: h.domain.domain ∧
    filter_by_fqdn hosts (get_fqdn h) = [h] := by
  refine ⟨rfl, ?_⟩
  have hdot : '.' ∈ get_fqdn h := by
    unfold get_fqdn
    exact List.mem_append.mpr (Or.inr (List.mem_cons_self _ _))
  have hsplit : split_first_dot (get_fqdn h) = (h.subdomain, h.domain.domain) :=
    split_first_dot_append h.subdomain h.domain.domain hnodot
  unfold filter_by_fqdn
  rw [if_pos hdot, hsplit]
  refine filter_eq_singleton_of_nodup hosts h _ hnd hmem ?_
  intro x hx
  constructor
  · intro hpx
    have hsub : x.subdomain = h.subdomain := by
      have := (Bool.and_eq_true _ _).mp hpx
      exact beq_iff_eq.mp this.1
    have hdom : x.domain.domain = h.domain.domain := by
      have := (Bool.and_eq_true _ _).mp hpx
      exact beq_iff_eq.mp this.2
    exact huniq x hx h hmem hsub hdom
  · intro hxh
    subst hxh
    simp

/-- Witness for C4: the singleton registry holding `exampleHost` resolves
`my-host.example.org` back to exactly `exampleHost`. -/
theorem C4_fqdn_roundtrip_witness :
    get_fqdn exampleHost = "my-host.example.org".toList ∧
    filter_by_fqdn [exampleHost] (get_fqdn exampleHost) = [exampleHost] := by
  have hthm := C4_fqdn_roundtrip [exampleHost] exampleHost
    (List.mem_singleton_self exampleHost) (List.nodup_singleton exampleHost)
    (by decide)
    (fun h₁ h₁m h₂ h₂m _ _ => by
      rw [List.mem_singleton.mp h₁m, List.mem_singleton.mp h₂m])
  exact ⟨by decide, hthm.2⟩

/-- C10: `poke` changes only the bookkeeping timestamps: it sets
`last_api_update` and the auto-managed `last_update` to the current time and
leaves `subdomain`, `domain`, `update_secret`, `comment`, `created_by` (and
the primary key) untouched. -/
theorem C10_poke_frame (db : List Host) (h : Host) (now : Nat) :
    (poke db h now).1.last_api_update = some now ∧
    (poke db h now).1.last_update = now ∧
    (poke db h now).1.subdomain = h.subdomain ∧
    (poke db h now).1.domain = h.domain ∧
    (poke db h now).1.update_secret = h.update_secret ∧
    (poke db h now).1.comment = h.comment ∧
    (poke db h now).1.created_by = h.created_by ∧
    (poke db h now).1.id = h.id := by
  exact ⟨rfl, rfl, rfl, rfl, rfl, rfl, rfl, rfl⟩

/-- C2: on a blacklist whose stored patterns all compile, the validator
raises `ValidationError` iff some entry matches a factor of the candidate
(unanchored `re.search`), returns normally iff none does — the logical OR of
the per-entry matches — and the outcome is invariant under reordering the
entries.  The embedded validator is a pure function of its inputs. -/
theorem C2_blacklist_substring_or (B : List StoredPattern) (v : List Char)
    (hgood : ∀ p ∈ B, p ≠ StoredPattern.malformed) :
    (domain_blacklist_validator B v = .validationError ↔
      ∃ r, StoredPattern.good r ∈ B ∧ ∃ x y z : List Char, v = x ++ y ++ z ∧ y ∈ r.matches') ∧
    (domain_blacklist_validator B v = .ok ↔
      ¬ ∃ r, StoredPattern.good r ∈ B ∧ ∃ x y z : List Char, v = x ++ y ++ z ∧ y ∈ r.matches') ∧
    (∀ B', B.Perm B' → domain_blacklist_validator B v = domain_blacklist_validator B' v) := by
  have hkey : B.any (pattern_matches v) = true ↔
      ∃ r, StoredPattern.good r ∈ B ∧ ∃ x y z : List Char, v = x ++ y ++ z ∧ y ∈ r.matches' := by
    rw [List.any_eq_true]
    constructor
    · rintro ⟨p, hp, hmat⟩
      cases p with
      | malformed => exact absurd hmat (by simp [pattern_matches])
      | good r => exact ⟨r, hp, (re_search_iff r v).mp hmat⟩
    · rintro ⟨r, hr, hfac⟩
      exact ⟨.good r, hr, (re_search_iff r v).mpr hfac⟩
  rw [domain_blacklist_validator_eq_of_good B v hgood]
  refine ⟨?_, ?_, ?_⟩
  · rw [← hkey]
    by_cases hb : B.any (pattern_matches v) = true
    · simp [hb]
    · simp [hb, Bool.eq_false_iff.mpr hb]
  · rw [← hkey]
    by_cases hb : B.any (pattern_matches v) = true
    · simp [hb]
    · simp [hb, Bool.eq_false_iff.mpr hb]
  · intro B' hperm
    have hgood' : ∀ p ∈ B', p ≠ StoredPattern.malformed :=
      fun p hp => hgood p (hperm.mem_iff.mpr hp)
    rw [domain_blacklist_validator_eq_of_good B' v hgood']
    have hany : B.any (pattern_matches v) = B'.any (pattern_matches v) := by
      refine Bool.eq_iff_iff.mpr ?_
      rw [List.any_eq_true, List.any_eq_true]
      constructor
      · rintro ⟨p, hp, hm⟩
        exact ⟨p, hperm.mem_iff.mp hp, hm⟩
      · rintro ⟨p, hp, hm⟩
        exact ⟨p, hperm.mem_iff.mpr hp, hm⟩
    rw [hany]

/-- Witness for C2: the single pattern `q` is found inside the candidate
`eqx` and the validator raises `ValidationError`. -/
theorem C2_blacklist_substring_or_witness :
    domain_blacklist_validator [StoredPattern.good (char 'q')] ("eqx".toList) =
      .validationError := by
  have hgood : ∀ p ∈ [StoredPattern.good (char 'q')], p ≠ StoredPattern.malformed := by
    intro p hp
    rw [List.mem_singleton] at hp
    subst hp
    exact fun hc => StoredPattern.noConfusion hc
  have hmain := C2_blacklist_substring_or [StoredPattern.good (char 'q')] ("eqx".toList) hgood
  refine hmain.1.mpr ⟨char 'q', List.mem_singleton_self _, ['e'], ['q'], ['x'], rfl, ?_⟩
  exact (rmatch_iff_matches' (char 'q') ['q']).mp (by decide)

/-- C9: a malformed stored pattern makes `re.search` raise `re.error`, which
`domain_blacklist_validator` does not catch: validation aborts and the
remaining patterns are never evaluated, although evaluating those remaining
patterns alone would complete normally. -/
theorem C9_malformed_pattern_crashes :
    domain_blacklist_validator [StoredPattern.malformed, StoredPattern.good (char 'z')]
        ['x'] = .reError ∧
    domain_blacklist_validator [StoredPattern.good (char 'z')] ['x'] = .ok := by
  exact ⟨rfl, by decide⟩

/-- Counterexample to C3 as stated: `"."` is not a valid base64 encoding,
yet `ns_update_key_validator` accepts it, because `base64.decodestring`
silently skips characters outside the base64 alphabet. -/
theorem C3_counterexample_dot_accepted :
    ns_update_key_validator ['.'] = .ok () ∧ is_valid_base64 ['.'] = false :=
  ⟨rfl, rfl⟩

/-- C3 (amended): the validator rejects the update key exactly when CPython's
lenient `base64.decodestring` fails with `Incorrect padding`; in particular
every valid base64 encoding is accepted, but some strings that are not valid
base64 (such as `"."`) are accepted as well. -/
theorem C3_update_key_validator_amended (k : List Char)
    (hk : is_valid_base64 k = true) :
    ns_update_key_validator k = .ok () ∧
    ∀ v : List Char, ns_update_key_validator v = .ok () ↔ base64_decodestring_ok v = true := by
  constructor
  · unfold ns_update_key_validator
    rw [decodestring_ok_of_valid k.length k le_rfl hk]
    rfl
  · intro v
    unfold ns_update_key_validator
    by_cases hv : base64_decodestring_ok v = true
    · simp [hv]
    · simp [hv]

/-- Witness for C3 (amended): the spec's §8 scenario key `bm90YXJlYWxrZXk=`
is valid base64 and the validator accepts it. -/
theorem C3_update_key_validator_amended_witness :
    is_valid_base64 ("bm90YXJlYWxrZXk=".toList) = true ∧
    ns_update_key_validator ("bm90YXJlYWxrZXk=".toList) = .ok () :=
  ⟨by decide, (C3_update_key_validator_amended ("bm90YXJlYWxrZXk=".toList) (by decide)).1⟩

/-- C8: the code's subdomain pattern
`^(([a-z0-9][a-z0-9\-]*[a-z0-9])|[a-z0-9])$` accepts exactly the strings of
the spec's reference label language `^[a-z0-9]([a-z0-9-]*[a-z0-9])?$`. -/
theorem C8_subdomain_regex_equivalence (s : List Char) :
    s ∈ codeSubdomainRegex.matches' ↔ s ∈ specSubdomainRegex.matches' := by
  rw [mem_codeSubdomainRegex_iff, mem_specSubdomainRegex_iff]

/-- C7: `generate_secret` returns the freshly drawn plaintext, stores only
the one-way verifier `make_password` of it — which never equals the
plaintext — persists the updated Host, and a re-issue overwrites the stored
verifier entirely with that of the new plaintext. -/
theorem C7_generate_secret_properties (sha1hex : List Char → List Char)
    (rng : Nat → Nat) (salt : List Char) (now : Nat) (db : List Host) (h : Host)
    (hmem : h ∈ db) :
    (generate_secret sha1hex rng salt now db h).2.2 = make_random_password rng ∧
    (generate_secret sha1hex rng salt now db h).1.update_secret =
      make_password sha1hex salt (make_random_password rng) ∧
    (generate_secret sha1hex rng salt now db h).1.update_secret ≠
      (generate_secret sha1hex rng salt now db h).2.2 ∧
    (generate_secret sha1hex rng salt now db h).1 ∈
      (generate_secret sha1hex rng salt now db h).2.1 ∧
    (∀ (sha1hex' : List Char → List Char) (rng' : Nat → Nat) (salt' : List Char)
       (now' : Nat) (db' : List Host),
      (generate_secret sha1hex' rng' salt' now' db'
          (generate_secret sha1hex rng salt now db h).1).1.update_secret =
        make_password sha1hex' salt' (make_random_password rng')) := by
  refine ⟨rfl, rfl, ?_, ?_, fun _ _ _ _ _ => rfl⟩
  · intro heq
    have hdollar_in : '$' ∈ make_password sha1hex salt (make_random_password rng) := by
      unfold make_password
      exact List.mem_append.mpr (Or.inr (List.mem_cons_self _ _))
    rw [show (generate_secret sha1hex rng salt now db h).1.update_secret =
          make_password sha1hex salt (make_random_password rng) from rfl,
        show (generate_secret sha1hex rng salt now db h).2.2 =
          make_random_password rng from rfl] at heq
    rw [heq] at hdollar_in
    unfold make_random_password at hdollar_in
    obtain ⟨i, _, hi⟩ := List.mem_map.mp hdollar_in
    have hmemchars : random_password_chars.getD (rng i % random_password_chars.length) 'a'
        ∈ random_password_chars := by
      rcases hget : random_password_chars.get? (rng i % random_password_chars.length)
        with _ | x
      · show (random_password_chars.get? _).getD 'a' ∈ random_password_chars
        rw [hget]
        decide
      · show (random_password_chars.get? _).getD 'a' ∈ random_password_chars
        rw [hget]
        exact List.get?_mem hget
    rw [hi] at hmemchars
    exact absurd hmemchars (by decide)
  · refine List.mem_map.mpr ⟨h, hmem, ?_⟩
    exact if_pos rfl

/-- Witness for C7: with a singleton registry, an identity digest stub, and
a fixed draw sequence, the stored verifier differs from the returned
plaintext and the updated row is persisted. -/
theorem C7_generate_secret_properties_witness :
    (generate_secret (fun l => l) (fun i => i) ("s".toList) 5 [exampleHost] exampleHost).1.update_secret ≠
      (generate_secret (fun l => l) (fun i => i) ("s".toList) 5 [exampleHost] exampleHost).2.2 ∧
    (generate_secret (fun l => l) (fun i => i) ("s".toList) 5 [exampleHost] exampleHost).1 ∈
      (generate_secret (fun l => l) (fun i => i) ("s".toList) 5 [exampleHost] exampleHost).2.1 := by
  have hmain := C7_generate_secret_properties (fun l => l) (fun i => i) ("s".toList) 5
    [exampleHost] exampleHost (List.mem_singleton_self exampleHost)
  exact ⟨hmain.2.2.1, hmain.2.2.2.1⟩

end HopperPw
